import Mathlib

/-!
Shallow embedding of the `djikstra` repository (Rust): the graph data
structure (`src/graph.rs`), the hash-map based minimum priority queue
(`src/pq.rs`) and the shortest-path routine (`src/djikstra.rs`).

Machine integers: Rust `usize` is modelled as `Nat` with 64-bit wrapping
made explicit where the source performs arithmetic (`usizeAdd` is the
release-mode semantics of `+` on `usize`, i.e. addition modulo `2 ^ 64`);
the `usize::MAX` sentinel is `usizeMAX`. Fallible operations (Rust panics:
out-of-bounds indexing, the `0..n-1` underflow on the empty graph) are
modelled with `Option`.

The `HashMap` underlying the priority queue is modelled as an association
list in insertion order; the Rust map's iteration order is unspecified, so
statements evaluated on concrete inputs below are only made where the
tie-breaking choice cannot affect the outcome (all relevant keys distinct).
-/

set_option autoImplicit false

def usizeMAX : Nat := 2 ^ 64 - 1

/-- Release-mode semantics of `+` on `usize`: wrapping addition mod `2 ^ 64`. -/
def usizeAdd (a b : Nat) : Nat := (a + b) % 2 ^ 64

/-! ## Graph (`src/graph.rs`) -/

/-- `Graph` from `src/graph.rs`: `adj` is the adjacency list; the index is a
vertex and the entry at that index is its list of `(neighbor, weight)` pairs. -/
structure Graph where
  adj : List (List (Nat × Nat))
deriving DecidableEq, Repr

namespace Graph

/-- `Graph::n_vertices`: `self.adj.len()`. -/
def n_vertices (g : Graph) : Nat := g.adj.length

/-- `Graph::n_edges`: `self.adj.iter().fold(0, |acc, x| acc + x.len())`. -/
def n_edges (g : Graph) : Nat := g.adj.foldl (fun acc x => acc + x.length) 0

/-- `Graph::neighbors_of`: `&self.adj[vertex]`. Rust's indexing panics when
`vertex` is out of bounds; the panic is modelled as `none`. -/
def neighbors_of (g : Graph) (vertex : Nat) : Option (List (Nat × Nat)) :=
  g.adj[vertex]?

/-- One neighbour-list comparison of `impl PartialEq for Graph` (lines
135-143 of `src/graph.rs`): equal lengths and mutual `contains`. -/
def nbrListEq (a b : List (Nat × Nat)) : Bool :=
  (a.length == b.length) && a.all (fun x => b.contains x) &&
    b.all (fun x => a.contains x)

/-- The per-vertex loop of `impl PartialEq for Graph`, walking the two
adjacency lists in index order. -/
def adjListsEq : List (List (Nat × Nat)) → List (List (Nat × Nat)) → Bool
  | [], [] => true
  | a :: as_, b :: bs => nbrListEq a b && adjListsEq as_ bs
  | _, _ => false

/-- `impl PartialEq for Graph::eq` from `src/graph.rs`: vertex counts agree
and, for each vertex index, the two neighbour lists have the same length and
each is element-wise contained in the other. -/
def beq (g h : Graph) : Bool :=
  (g.adj.length == h.adj.length) && adjListsEq g.adj h.adj

end Graph

/-! ## PriorityQueue (`src/pq.rs`) -/

namespace PriorityQueue

/-- `PriorityQueue::from_keys`: every element of the input gets the key
`usize::MAX`. The hash map is modelled as an association list in insertion
order. -/
def from_keys {T : Type} (input : List T) : List (T × Nat) :=
  input.map (fun item => (item, usizeMAX))

/-- `PriorityQueue::change_key`: set the key of `element` if it is present,
silently do nothing otherwise (`HashMap::get_mut` returning `None`). -/
def change_key {T : Type} [DecidableEq T] (pq : List (T × Nat)) (element : T)
    (key : Nat) : List (T × Nat) :=
  match pq with
  | [] => []
  | p :: rest =>
    if p.1 = element then (p.1, key) :: rest
    else p :: change_key rest element key

/-- The body of the scan loop of `PriorityQueue::extract_min`: replace the
current minimum when a strictly smaller key is found (`m_value > value`),
so the first entry reaching the minimum key is kept. -/
def minStep {T : Type} (m q : T × Nat) : T × Nat :=
  if q.2 < m.2 then q else m

/-- The scan of `PriorityQueue::extract_min` over the map: the entry with
the smallest key, the earliest such entry in iteration order on ties;
`none` on the empty map. -/
def findMinEntry {T : Type} : List (T × Nat) → Option (T × Nat)
  | [] => none
  | p :: rest => some (rest.foldl minStep p)

/-- `HashMap::remove_entry(&min_key)`: drop the entry whose element is
`element` (the map holds each element at most once). -/
def removeEntry {T : Type} [DecidableEq T] (element : T) :
    List (T × Nat) → List (T × Nat)
  | [] => []
  | p :: rest => if p.1 = element then rest else p :: removeEntry element rest

/-- `PriorityQueue::extract_min`: scan for the minimum-keyed entry, remove
it, and return it together with the remaining queue (the state after the
`&mut self` call). -/
def extract_min {T : Type} [DecidableEq T] (pq : List (T × Nat)) :
    Option ((T × Nat) × List (T × Nat)) :=
  match findMinEntry pq with
  | none => none
  | some m => some (m, removeEntry m.1 pq)

end PriorityQueue

/-! ## Dijkstra (`src/djikstra.rs`) -/

/-- The mutable state of `djikstra`: `parents`, `dists_from_src`, `checked`
and the priority queue. -/
structure DjState where
  parents : List (Option Nat)
  dists : List Nat
  checked : List Bool
  pq : List (Nat × Nat)
deriving DecidableEq, Repr

/-- The `for &(neighbour, dist) in neighbours.iter()` relaxation loop of
`djikstra`. The `checked`/`dists` reads use `getD` defaults that make an
out-of-range neighbour id a skip; the Rust code would panic there, and no
theorem below evaluates such a graph. The addition is the wrapping
`usizeAdd`, as in a release build. -/
def relaxNeighbors (node dist_src : Nat) :
    List (Nat × Nat) → DjState → DjState
  | [], st => st
  | (neighbour, dist) :: rest, st =>
    relaxNeighbors node dist_src rest
      (if st.checked.getD neighbour false = false ∧
          st.dists.getD neighbour 0 > usizeAdd dist dist_src then
        { st with
          dists := st.dists.set neighbour (usizeAdd dist dist_src)
          parents := st.parents.set neighbour (some node)
          pq := PriorityQueue.change_key st.pq neighbour
            (usizeAdd dist dist_src) }
      else st)

/-- The `while let Some((node, dist_src)) = pq.extract_min()` loop of
`djikstra`, run with explicit fuel. Each iteration with a nonempty queue
removes exactly one queue entry and `change_key` preserves the queue
length, so fuel equal to the initial queue length runs the loop to queue
exhaustion exactly as the Rust `while let` does
(`djikstraLoop_pq_nil` below). -/
def djikstraLoop (g : Graph) : Nat → DjState → DjState
  | 0, st => st
  | fuel + 1, st =>
    match PriorityQueue.extract_min st.pq with
    | none => st
    | some ((node, dist_src), rest) =>
      let st1 := relaxNeighbors node dist_src (g.adj.getD node [])
        { st with pq := rest }
      djikstraLoop g fuel { st1 with checked := st1.checked.set node true }

/-- The state of `djikstra` after lines 10-17: `parents` all `None`,
`dists_from_src` all `usize::MAX` except `dists_from_src[src] = 0`,
`checked` all false, and the queue seeded by
`PriorityQueue::from_keys(0..n_elems - 1)` followed by
`pq.change_key(&src, 0)`. Note the seeding range is the Rust half-open
`0..n_elems - 1`, which stops at `n_elems - 2`. -/
def djikstraInit (g : Graph) (src : Nat) : DjState :=
  let n_elems := g.n_vertices
  { parents := List.replicate n_elems none
    dists := (List.replicate n_elems usizeMAX).set src 0
    checked := List.replicate n_elems false
    pq := PriorityQueue.change_key
      (PriorityQueue.from_keys (List.range (n_elems - 1))) src 0 }

/-- The state after the extraction loop of `djikstra` has drained the
queue. -/
def djikstraFinal (g : Graph) (src : Nat) : DjState :=
  let st := djikstraInit g src
  djikstraLoop g st.pq.length st

/-- One step chain of the path-reconstruction `while let Some(node) =
parents[*path.last().unwrap()]` loop, building the (already reversed) path
front-first; `fuel` bounds the number of predecessor steps taken. The Rust
loop is unbounded; `parentChainEnds` below states when the fuel is
irrelevant. -/
def followParents (parents : List (Option Nat)) :
    Nat → Nat → List Nat → List Nat
  | 0, _, acc => acc
  | fuel + 1, cur, acc =>
    match parents.getD cur none with
    | none => acc
    | some node => followParents parents fuel node (node :: acc)

/-- Whether the predecessor walk starting at `v` reaches a vertex with no
predecessor within `fuel` steps — i.e. whether the Rust reconstruction
loop terminates on this chain. -/
def parentChainEnds (parents : List (Option Nat)) :
    Nat → Nat → Bool
  | fuel, v =>
    match parents.getD v none with
    | none => true
    | some u =>
      match fuel with
      | 0 => false
      | fuel' + 1 => parentChainEnds parents fuel' u

/-- Lines 32-45 of `djikstra`: for each vertex `v` build the predecessor
path and keep it when `path.len() > 1 || path[0] == src`. The walk is run
with fuel `n`; on states whose parent links form no cycle this equals the
Rust unbounded walk. -/
def reconstructPaths (src n : Nat) (parents : List (Option Nat)) :
    List (Option (List Nat)) :=
  (List.range n).map fun v =>
    let path := followParents parents n v [v]
    if path.length > 1 ∨ path.getD 0 0 = src then some path else none

/-- `djikstra` from `src/djikstra.rs`, returning
`(paths_from_src, dists_from_src)`. The two `none` branches are the Rust
panics: `0..n_elems - 1` underflows when the graph is empty, and
`dists_from_src[src] = 0` is out of bounds when `src >= n_elems`. -/
def djikstra (g : Graph) (src : Nat) :
    Option (List (Option (List Nat)) × List Nat) :=
  if g.n_vertices = 0 then none
  else if g.n_vertices ≤ src then none
  else
    let final := djikstraFinal g src
    some (reconstructPaths src g.n_vertices final.parents, final.dists)

/-! ## Claim theorems -/

/-- C1 (code bug): on the graph with edges 0→2 (weight 1) and 2→1
(weight 1) and source 0, the walk 0→2→1 of total weight 2 exists, yet
djikstra returns distances [0, usize::MAX, 1]: vertex 1 is reported
unreached. The seeding range 0..n_elems-1 omits the last vertex (here 2),
so its outgoing edge is never relaxed. -/
theorem djikstra_misses_last_vertex :
    djikstra (Graph.mk [[(2, 1)], [], [(1, 1)]]) 0 =
      some ([some [0], none, some [0, 2]], [0, usizeMAX, 1]) ∧
    usizeMAX ≠ 2 := by
  refine ⟨by decide, by decide⟩

/-- C2 (code bug): the queue seeded by djikstra at lines 14 on a 4-vertex
graph contains exactly the elements 0, 1, 2 (each keyed usize::MAX):
vertex 3 = n-1 is absent, though the claim says all n vertex ids are
seeded. -/
theorem from_keys_seeding_omits_last :
    PriorityQueue.from_keys
        (List.range
          (Graph.n_vertices
            (Graph.mk [[(1, 4), (2, 1)], [(0, 4), (2, 2), (3, 5)],
              [(0, 1), (1, 2), (3, 5)], [(1, 5), (2, 1)]]) - 1)) =
      [(0, usizeMAX), (1, usizeMAX), (2, usizeMAX)] ∧
    (3 : Nat) ∉
      (PriorityQueue.from_keys
        (List.range
          (Graph.n_vertices
            (Graph.mk [[(1, 4), (2, 1)], [(0, 4), (2, 2), (3, 5)],
              [(0, 1), (1, 2), (3, 5)], [(1, 5), (2, 1)]]) - 1))).map
        Prod.fst := by
  refine ⟨by decide, by decide⟩

/-- C3 (code bug): on the graph with the single edge 1→2 (weight 7) and
source 0, vertex 1 is extracted with key usize::MAX and the relaxation
computes 7 + usize::MAX, which wraps to 6 instead of saturating at the
sentinel: the unreachable vertex 2 is assigned the corrupted finite
distance 6. -/
theorem djikstra_overflow_wraps :
    usizeAdd 7 usizeMAX = 6 ∧
    djikstra (Graph.mk [[], [(2, 7)], []]) 0 =
      some ([some [0], none, some [1, 2]], [0, usizeMAX, 6]) ∧
    6 < usizeMAX := by
  refine ⟨by decide, by decide, by decide⟩

/-- C4 counterexample: on the 4-vertex example graph with source 2 the
distances component returned by djikstra is [1, 2, 0, 5], not the
[1, 2, 0, 1] the claim states (the cheapest way to vertex 3 is the direct
edge 2→3 of weight 5). -/
theorem djikstra_example_distances_ne_spec :
    (djikstra (Graph.mk [[(1, 4), (2, 1)], [(0, 4), (2, 2), (3, 5)],
        [(0, 1), (1, 2), (3, 5)], [(1, 5), (2, 1)]]) 2).map
        (fun r => r.2) = some [1, 2, 0, 5] ∧
    some [1, 2, 0, 5] ≠ some [1, 2, 0, 1] := by
  refine ⟨by decide, by decide⟩

/-- C4 (amended): for the 4-vertex graph [[(1,4),(2,1)], [(0,4),(2,2),(3,5)],
[(0,1),(1,2),(3,5)], [(1,5),(2,1)]] and source 2, djikstra returns
distances [1, 2, 0, 5] and paths [[2,0], [2,1], [2], [2,3]]. -/
theorem djikstra_example_eval :
    djikstra (Graph.mk [[(1, 4), (2, 1)], [(0, 4), (2, 2), (3, 5)],
        [(0, 1), (1, 2), (3, 5)], [(1, 5), (2, 1)]]) 2 =
      some ([some [2, 0], some [2, 1], some [2], some [2, 3]],
        [1, 2, 0, 5]) := by decide

/-- C7 (code bug): on the graph with the single edge 1→2 (weight 5) and
source 0, the wrapping relaxation from the usize::MAX-keyed vertex 1 gives
vertex 2 the finite distance 4 and the path [1, 2], whose first element is
1, not the source 0 — violating the invariant that every present path
starts at the source. -/
theorem djikstra_path_not_from_source :
    djikstra (Graph.mk [[], [(2, 5)], []]) 0 =
      some ([some [0], none, some [1, 2]], [0, usizeMAX, 4]) ∧
    List.getD [1, 2] 0 0 ≠ 0 := by
  refine ⟨by decide, by decide⟩

/-- C9 (code bug): on the graph whose only edge is the self-loop 1→1
(weight 1) with source 0, vertex 1 is extracted with key usize::MAX and
relaxes itself (1 + usize::MAX wraps to 0 < usize::MAX, and checked[1] is
still false), producing parents[1] = Some(1): the predecessor links form a
cycle and the reconstruction walk from vertex 1 never reaches a
predecessor-free vertex. The extraction loop itself does drain the queue. -/
theorem djikstra_parent_cycle :
    (djikstraFinal (Graph.mk [[], [(1, 1)], []]) 0).parents =
      [none, some 1, none] ∧
    (djikstraFinal (Graph.mk [[], [(1, 1)], []]) 0).pq = [] ∧
    parentChainEnds
      (djikstraFinal (Graph.mk [[], [(1, 1)], []]) 0).parents 3 1 = false := by
  refine ⟨by decide, by decide, by decide⟩

/-- C10 (confirmed): on the empty graph the queue-seeding expression
0..n_elems - 1 underflows, so djikstra fails (the panic is modelled as
none) instead of returning an empty result. -/
theorem djikstra_empty_graph :
    djikstra (Graph.mk []) 0 = none ∧
    djikstra (Graph.mk []) 0 ≠ some ([], []) := by
  refine ⟨by decide, by decide⟩

/-- C8 (confirmed): neighbors_of fails (the out-of-bounds panic, modelled
as none) exactly when the vertex is at least the vertex count, and for an
in-range vertex it returns the stored neighbour list of that vertex. -/
theorem neighbors_of_spec (g : Graph) (vertex : Nat) :
    (g.n_vertices ≤ vertex → g.neighbors_of vertex = none) ∧
    (vertex < g.n_vertices →
      g.neighbors_of vertex = some (g.adj.getD vertex [])) := by
  constructor
  · intro h
    exact List.getElem?_eq_none h
  · intro h
    simp [Graph.neighbors_of, List.getD_eq_getElem?_getD,
      List.getElem?_eq_getElem h]

/-- Witness for C8: on the one-vertex graph with neighbour list [(0, 1)],
vertex 3 is out of bounds and fails, vertex 0 returns its stored list. -/
theorem neighbors_of_spec_witness :
    Graph.neighbors_of (Graph.mk [[(0, 1)]]) 3 = none ∧
    Graph.neighbors_of (Graph.mk [[(0, 1)]]) 0 = some [(0, 1)] :=
  ⟨(neighbors_of_spec (Graph.mk [[(0, 1)]]) 3).1 (by decide),
   (neighbors_of_spec (Graph.mk [[(0, 1)]]) 0).2 (by decide)⟩

/-! ## Priority-queue lemmas (supporting C6 and the loop-fuel adequacy) -/

/-- The scan of extract_min returns an entry of the map. -/
theorem foldl_minStep_mem {T : Type} (l : List (T × Nat)) (m : T × Nat) :
    l.foldl PriorityQueue.minStep m ∈ m :: l := by
  induction l generalizing m with
  | nil => simp
  | cons q l ih =>
    have h := ih (PriorityQueue.minStep m q)
    simp only [List.foldl_cons]
    rcases List.mem_cons.mp h with h1 | h1
    · rw [h1]
      by_cases hq : q.2 < m.2 <;> simp [PriorityQueue.minStep, hq]
    · exact List.mem_cons_of_mem _ (List.mem_cons_of_mem _ h1)

/-- The scan of extract_min returns a key bounded by the initial entry's key
and by every key of the map. -/
theorem foldl_minStep_le {T : Type} (l : List (T × Nat)) (m : T × Nat) :
    (l.foldl PriorityQueue.minStep m).2 ≤ m.2 ∧
      ∀ q ∈ l, (l.foldl PriorityQueue.minStep m).2 ≤ q.2 := by
  induction l generalizing m with
  | nil => exact ⟨le_refl _, by simp⟩
  | cons q l ih =>
    have h := ih (PriorityQueue.minStep m q)
    have hm : (PriorityQueue.minStep m q).2 ≤ m.2 ∧
        (PriorityQueue.minStep m q).2 ≤ q.2 := by
      by_cases hq : q.2 < m.2 <;> simp [PriorityQueue.minStep, hq] <;> omega
    simp only [List.foldl_cons]
    refine ⟨le_trans h.1 hm.1, ?_⟩
    intro r hr
    rcases List.mem_cons.mp hr with rfl | hr
    · exact le_trans h.1 hm.2
    · exact h.2 r hr

/-- Removing a present element shortens the map by exactly one entry. -/
theorem removeEntry_length {T : Type} [DecidableEq T] (e : T) :
    ∀ l : List (T × Nat), e ∈ l.map Prod.fst →
      (PriorityQueue.removeEntry e l).length + 1 = l.length := by
  intro l
  induction l with
  | nil => intro h; simp at h
  | cons p rest ih =>
    intro h
    by_cases hp : p.1 = e
    · simp [PriorityQueue.removeEntry, hp]
    · have h' : e ∈ rest.map Prod.fst := by
        rcases List.mem_map.mp h with ⟨q, hq, hqe⟩
        rcases List.mem_cons.mp hq with rfl | hq2
        · exact absurd hqe hp
        · exact List.mem_map.mpr ⟨q, hq2, hqe⟩
      have h2 := ih h'
      simp only [PriorityQueue.removeEntry, if_neg hp, List.length_cons]
      omega

/-- extract_min fails exactly on the empty queue. -/
theorem extract_min_eq_none_iff {T : Type} [DecidableEq T]
    (pq : List (T × Nat)) :
    PriorityQueue.extract_min pq = none ↔ pq = [] := by
  cases pq <;>
    simp [PriorityQueue.extract_min, PriorityQueue.findMinEntry]

/-- A successful extract_min returns an entry of the queue whose key is
minimal, and the remaining queue is one entry shorter. -/
theorem extract_min_some_spec {T : Type} [DecidableEq T]
    (pq rest : List (T × Nat)) (m : T × Nat)
    (h : PriorityQueue.extract_min pq = some (m, rest)) :
    m ∈ pq ∧ (∀ p ∈ pq, m.2 ≤ p.2) ∧ rest.length + 1 = pq.length := by
  cases pq with
  | nil => simp [PriorityQueue.extract_min, PriorityQueue.findMinEntry] at h
  | cons p rest0 =>
    have h' : (rest0.foldl PriorityQueue.minStep p,
        PriorityQueue.removeEntry (rest0.foldl PriorityQueue.minStep p).1
          (p :: rest0)) = (m, rest) := by
      simpa [PriorityQueue.extract_min, PriorityQueue.findMinEntry] using h
    have hm : rest0.foldl PriorityQueue.minStep p = m :=
      congrArg Prod.fst h'
    have hrest : PriorityQueue.removeEntry m.1 (p :: rest0) = rest := by
      have := congrArg Prod.snd h'
      rwa [hm] at this
    have hmem : m ∈ p :: rest0 := hm ▸ foldl_minStep_mem rest0 p
    refine ⟨hmem, ?_, ?_⟩
    · intro q hq
      have hle := foldl_minStep_le rest0 p
      rw [hm] at hle
      rcases List.mem_cons.mp hq with rfl | hq2
      · exact hle.1
      · exact hle.2 q hq2
    · have hfst : m.1 ∈ (p :: rest0).map Prod.fst :=
        List.mem_map.mpr ⟨m, hmem, rfl⟩
      rw [← hrest]
      exact removeEntry_length m.1 (p :: rest0) hfst

/-- C6 (confirmed): extract_min returns the empty sentinel exactly when the
queue has no elements, and a successful extraction removes and returns an
element of the queue together with its key, that key being less than or
equal to the key of every element of the queue. -/
theorem extract_min_spec {T : Type} [DecidableEq T] (pq : List (T × Nat)) :
    (PriorityQueue.extract_min pq = none ↔ pq = []) ∧
    (∀ e k rest, PriorityQueue.extract_min pq = some ((e, k), rest) →
      (e, k) ∈ pq ∧ (∀ p ∈ pq, k ≤ p.2) ∧ rest.length + 1 = pq.length) := by
  refine ⟨extract_min_eq_none_iff pq, ?_⟩
  intro e k rest h
  exact extract_min_some_spec pq rest (e, k) h

/-- Witness for C6: on the queue with entries (5, key 3) and (7, key 1),
extract_min returns element 7 with the minimal key 1 and leaves one entry;
on the empty queue it returns the empty sentinel. -/
theorem extract_min_spec_witness :
    ((7, 1) ∈ [((5 : Nat), (3 : Nat)), (7, 1)] ∧
      (∀ p ∈ [((5 : Nat), (3 : Nat)), (7, 1)], 1 ≤ p.2) ∧
      [((5 : Nat), (3 : Nat))].length + 1 =
        [((5 : Nat), (3 : Nat)), (7, 1)].length) ∧
    PriorityQueue.extract_min ([] : List (Nat × Nat)) = none :=
  ⟨(extract_min_spec [((5 : Nat), (3 : Nat)), (7, 1)]).2 7 1 [(5, 3)]
      (by decide),
   (extract_min_spec ([] : List (Nat × Nat))).1.mpr rfl⟩

/-! ## Graph-equality lemmas (supporting C5) -/

/-- Characterization of one neighbour-list comparison: equal lengths and
mutual membership. -/
theorem nbrListEq_iff (a b : List (Nat × Nat)) :
    Graph.nbrListEq a b = true ↔
      (a.length = b.length ∧ (∀ x ∈ a, x ∈ b) ∧ (∀ x ∈ b, x ∈ a)) := by
  simp [Graph.nbrListEq, List.all_eq_true, List.contains, List.elem_iff,
    and_assoc]

/-- Characterization of the per-vertex loop of the equality test. -/
theorem adjListsEq_iff :
    ∀ as_ bs : List (List (Nat × Nat)),
      Graph.adjListsEq as_ bs = true ↔
        (as_.length = bs.length ∧ ∀ i, i < as_.length →
          Graph.nbrListEq (as_.getD i []) (bs.getD i []) = true)
  | [], [] => by simp [Graph.adjListsEq]
  | [], b :: bs => by simp [Graph.adjListsEq]
  | a :: as_, [] => by simp [Graph.adjListsEq]
  | a :: as_, b :: bs => by
    simp only [Graph.adjListsEq, Bool.and_eq_true, adjListsEq_iff as_ bs,
      List.length_cons]
    constructor
    · rintro ⟨h1, h2, h3⟩
      refine ⟨by omega, ?_⟩
      intro i hi
      cases i with
      | zero => simpa using h1
      | succ j => simpa using h3 j (by omega)
    · rintro ⟨h1, h2⟩
      refine ⟨by simpa using h2 0 (by omega), by omega, ?_⟩
      intro j hj
      simpa using h2 (j + 1) (by omega)

/-- C5 counterexample: the graphs with single neighbour lists
[(0,1), (0,1), (1,1)] and [(0,1), (1,1), (1,1)] have per-vertex lists of
the same length and the same underlying set but different duplicate
multiplicities (the pair (0,1) occurs twice in one and once in the other),
yet the code's equality test accepts them as equal — the claim says such
graphs are NOT equal. -/
theorem graph_beq_duplicates_counterexample :
    Graph.beq (Graph.mk [[(0, 1), (0, 1), (1, 1)]])
      (Graph.mk [[(0, 1), (1, 1), (1, 1)]]) = true ∧
    [((0 : Nat), (1 : Nat)), (0, 1), (1, 1)].count (0, 1) ≠
      [((0 : Nat), (1 : Nat)), (1, 1), (1, 1)].count (0, 1) := by
  refine ⟨by decide, by decide⟩

/-- C5 (amended): the == operator holds between two graphs if and only if
they have the same vertex count and, for every vertex index, the two
neighbour lists have the same length and each element of one occurs in the
other (set-wise mutual containment with matching lengths); lists with the
same length and the same underlying set but different duplicate
multiplicities therefore compare equal. -/
theorem graph_beq_iff (g h : Graph) :
    Graph.beq g h = true ↔
      (g.n_vertices = h.n_vertices ∧ ∀ i, i < g.n_vertices →
        ((g.adj.getD i []).length = (h.adj.getD i []).length ∧
         (∀ x ∈ g.adj.getD i [], x ∈ h.adj.getD i []) ∧
         (∀ x ∈ h.adj.getD i [], x ∈ g.adj.getD i []))) := by
  show ((g.adj.length == h.adj.length) && Graph.adjListsEq g.adj h.adj)
      = true ↔ _
  rw [Bool.and_eq_true, beq_iff_eq, adjListsEq_iff g.adj h.adj]
  constructor
  · rintro ⟨h1, -, h2⟩
    exact ⟨h1, fun i hi => (nbrListEq_iff _ _).mp (h2 i hi)⟩
  · rintro ⟨h1, h2⟩
    exact ⟨h1, h1, fun i hi => (nbrListEq_iff _ _).mpr (h2 i hi)⟩

/-- Witness for C5's amended statement, on the spec's own example: the
3-vertex graph [[(1,3),(2,3)], [(2,2),(0,3)], [(1,2),(0,3)]] equals its
per-vertex permutation [[(2,3),(1,3)], [(0,3),(2,2)], [(0,3),(1,2)]]. -/
theorem graph_beq_iff_witness :
    Graph.beq (Graph.mk [[(1, 3), (2, 3)], [(2, 2), (0, 3)], [(1, 2), (0, 3)]])
      (Graph.mk [[(2, 3), (1, 3)], [(0, 3), (2, 2)], [(0, 3), (1, 2)]]) =
      true :=
  (graph_beq_iff _ _).mpr (by decide)

/-! ## Fuel adequacy: the fueled loop drains the queue, so running it with
fuel equal to the initial queue length is exactly the Rust unbounded
`while let` loop. -/

/-- change_key never changes the number of queue entries. -/
theorem change_key_length {T : Type} [DecidableEq T] (element : T) (key : Nat) :
    ∀ pq : List (T × Nat),
      (PriorityQueue.change_key pq element key).length = pq.length
  | [] => rfl
  | p :: rest => by
    by_cases hp : p.1 = element <;>
      simp [PriorityQueue.change_key, hp, change_key_length element key rest]

/-- The relaxation loop never changes the number of queue entries. -/
theorem relaxNeighbors_pq_length (node dist_src : Nat) :
    ∀ (neighbours : List (Nat × Nat)) (st : DjState),
      (relaxNeighbors node dist_src neighbours st).pq.length = st.pq.length
  | [], st => rfl
  | (neighbour, dist) :: rest, st => by
    rw [relaxNeighbors, relaxNeighbors_pq_length node dist_src rest]
    split
    · simp [change_key_length]
    · rfl

/-- With fuel at least the queue length, the extraction loop runs until
extract_min reports the queue empty, as the Rust loop does. -/
theorem djikstraLoop_pq_nil (g : Graph) :
    ∀ (fuel : Nat) (st : DjState), st.pq.length ≤ fuel →
      (djikstraLoop g fuel st).pq = []
  | 0, st, h => by
    have : st.pq = [] := List.eq_nil_of_length_eq_zero (Nat.le_zero.mp h)
    simpa [djikstraLoop] using this
  | fuel + 1, st, h => by
    rw [djikstraLoop]
    cases hx : PriorityQueue.extract_min st.pq with
    | none =>
      have : st.pq = [] := by
        cases hpq : st.pq with
        | nil => rfl
        | cons p rest0 =>
          rw [hpq] at hx
          simp [PriorityQueue.extract_min, PriorityQueue.findMinEntry] at hx
      simpa using this
    | some v =>
      obtain ⟨⟨node, dist_src⟩, rest⟩ := v
      have hlen := (extract_min_some_spec st.pq rest (node, dist_src) hx).2.2
      apply djikstraLoop_pq_nil g fuel
      have hrelax := relaxNeighbors_pq_length node dist_src
        (g.adj.getD node []) { st with pq := rest }
      simp only [] at hrelax ⊢
      omega
